import Mathlib

/-!
Verification development for the transaction state-transition engine of an
account-based ledger (miden-base).  The repository snapshot under study contains
only the kernel test module `crates/miden-testing/src/kernel_tests/mod.rs`; the
components it exercises (delta computer, output-note builder, witness replay,
lifecycle, consumption checker) are declared in sibling crates that are not part
of the snapshot.  Every definition below is therefore modelled from the
specification document, faithful to its words, and the claims are settled
against these models.
-/

namespace Miden

/-- A field-element word; commitments and storage values are abstracted to
naturals, which is enough for every property under study (none depends on the
internal structure of a word). -/
abbrev Word := Nat

/-- A globally unique account identifier. -/
abbrev AccountId := Nat

/-- Modelled from the spec: the Asset value type of the Note/Asset Model
(crate miden-objects, absent from the snapshot).  Spec section 3: tagged union
Fungible with issuer and amount, NonFungible with digest; fungible assets are
fungible by issuer, non-fungible assets are unique by digest. -/
inductive Asset where
  | fungible (issuer : AccountId) (amount : Nat)
  | nonFungible (digest : Word)
deriving DecidableEq, Repr

/-- Modelled from the spec: the asset vault of an account (crate miden-objects,
absent from the snapshot).  Spec section 3: a set of assets with fungible
amounts aggregated per issuer and non-fungible assets unique by digest.  The
fungible part is an association list issuer to amount; the non-fungible part a
list of digests. -/
structure Vault where
  fungible : List (AccountId × Nat)
  nonFungible : List Word
deriving DecidableEq, Repr

namespace Vault

/-- Aggregated fungible balance of an issuer in a vault. -/
def bal (v : Vault) (issuer : AccountId) : Nat :=
  ((v.fungible.filter fun p => decide (p.1 = issuer)).map Prod.snd).sum

/-- Whether the vault holds a given non-fungible digest. -/
def holdsNF (v : Vault) (d : Word) : Prop := d ∈ v.nonFungible

instance (v : Vault) (d : Word) : Decidable (v.holdsNF d) := by
  unfold holdsNF; infer_instance

/-- Extensional equivalence of vaults: same fungible balance per issuer and the
same set of non-fungible digests.  This is equality of the asset sets the spec
describes, independent of list representation. -/
def sameAssets (v w : Vault) : Prop :=
  (∀ i, v.bal i = w.bal i) ∧ (∀ d, v.holdsNF d ↔ w.holdsNF d)

end Vault

/-- The issuers mentioned by either of two vaults, deduplicated.  The vault
delta is computed per issuer over this set. -/
def vaultIssuers (before after : Vault) : List AccountId :=
  (before.fungible.map Prod.fst ++ after.fungible.map Prod.fst).dedup

/-- Modelled from the spec: the vault part of the AccountDelta (Delta Computer,
crate miden-objects, absent from the snapshot).  Spec section 4.1: vault
changes are an asset-by-asset quantity difference for fungible assets (amount
removed is max 0 of before minus after per issuer, amount added is max 0 of
after minus before per issuer) and a set difference for non-fungible assets. -/
structure VaultDelta where
  addedFungible : List (AccountId × Nat)
  removedFungible : List (AccountId × Nat)
  addedNonFungible : List Word
  removedNonFungible : List Word
deriving DecidableEq, Repr

/-- Modelled from the spec: computation of the vault delta from before and
after vault snapshots (Delta Computer, absent from the snapshot).  Natural
subtraction realises the max-0 clamping of spec section 4.1 directly. -/
def computeVaultDelta (before after : Vault) : VaultDelta :=
  { addedFungible :=
      (vaultIssuers before after).filterMap (fun i =>
        if after.bal i - before.bal i = 0 then none
        else some (i, after.bal i - before.bal i))
    removedFungible :=
      (vaultIssuers before after).filterMap (fun i =>
        if before.bal i - after.bal i = 0 then none
        else some (i, before.bal i - after.bal i))
    addedNonFungible :=
      after.nonFungible.filter fun d => decide (d ∉ before.nonFungible)
    removedNonFungible :=
      before.nonFungible.filter fun d => decide (d ∉ after.nonFungible) }

/-- Amount recorded for an issuer in a fungible delta component, zero when the
issuer is absent. -/
def deltaAmt (entries : List (AccountId × Nat)) (i : AccountId) : Nat :=
  ((entries.find? fun q => decide (q.1 = i)).map Prod.snd).getD 0

/-- Re-application of a vault delta to a before-vault: per issuer the removed
amount is subtracted from and the added amount is added to the before balance,
removed non-fungible digests are dropped and added ones appended.  The result
is built in canonical form, one fungible entry per issuer. -/
def applyVaultDelta (before : Vault) (d : VaultDelta) : Vault :=
  { fungible :=
      ((before.fungible.map Prod.fst ++ d.addedFungible.map Prod.fst).dedup).map
        (fun i => (i, before.bal i - deltaAmt d.removedFungible i
                        + deltaAmt d.addedFungible i))
    nonFungible :=
      (before.nonFungible.filter fun x => decide (x ∉ d.removedNonFungible))
        ++ d.addedNonFungible }

-- Vault delta lemmas
-- ==================

lemma bal_eq_zero_of_not_mem (v : Vault) (i : AccountId)
    (h : i ∉ v.fungible.map Prod.fst) : v.bal i = 0 := by
  unfold Vault.bal
  have hf : v.fungible.filter (fun p => decide (p.1 = i)) = [] := by
    rw [List.filter_eq_nil_iff]
    intro p hp hpi
    exact h (List.mem_map.mpr ⟨p, hp, by simpa using hpi⟩)
  rw [hf]
  rfl

lemma mem_vaultIssuers_left (b a : Vault) (i : AccountId) (h : b.bal i ≠ 0) :
    i ∈ vaultIssuers b a := by
  unfold vaultIssuers
  rw [List.mem_dedup, List.mem_append]
  left
  by_contra hmem
  exact h (bal_eq_zero_of_not_mem b i hmem)

lemma mem_vaultIssuers_right (b a : Vault) (i : AccountId) (h : a.bal i ≠ 0) :
    i ∈ vaultIssuers b a := by
  unfold vaultIssuers
  rw [List.mem_dedup, List.mem_append]
  right
  by_contra hmem
  exact h (bal_eq_zero_of_not_mem a i hmem)

lemma find?_key_filterMap (l : List AccountId) (hl : l.Nodup) (f : AccountId → Nat)
    (i : AccountId) :
    ((l.filterMap fun j => if f j = 0 then none else some (j, f j)).find?
        fun q => decide (q.1 = i)) =
      if i ∈ l ∧ f i ≠ 0 then some (i, f i) else none := by
  induction l with
  | nil => simp
  | cons j t ih =>
    have hj : j ∉ t := (List.nodup_cons.mp hl).1
    have ht : t.Nodup := (List.nodup_cons.mp hl).2
    simp only [List.filterMap_cons]
    by_cases hfj : f j = 0
    · rw [if_pos hfj, ih ht]
      by_cases hij : i = j
      · subst hij
        simp [hfj]
      · have hmem : (i ∈ j :: t) ↔ (i ∈ t) := by
          constructor
          · intro hm
            rcases List.mem_cons.mp hm with h | h
            · exact absurd h hij
            · exact h
          · exact fun hm => List.mem_cons_of_mem _ hm
        by_cases hcond : i ∈ t ∧ f i ≠ 0
        · rw [if_pos hcond, if_pos ⟨hmem.mpr hcond.1, hcond.2⟩]
        · have hcond2 : ¬(i ∈ j :: t ∧ f i ≠ 0) := fun hc => hcond ⟨hmem.mp hc.1, hc.2⟩
          rw [if_neg hcond, if_neg hcond2]
    · rw [if_neg hfj]
      by_cases hij : j = i
      · subst hij
        rw [List.find?_cons_of_pos _ (by simp)]
        rw [if_pos ⟨List.mem_cons_self j t, hfj⟩]
      · rw [List.find?_cons_of_neg _ (by simp [hij]), ih ht]
        have hmem : (i ∈ j :: t) ↔ (i ∈ t) := by
          constructor
          · intro hm
            rcases List.mem_cons.mp hm with h | h
            · exact absurd h.symm hij
            · exact h
          · exact fun hm => List.mem_cons_of_mem _ hm
        by_cases hcond : i ∈ t ∧ f i ≠ 0
        · rw [if_pos hcond, if_pos ⟨hmem.mpr hcond.1, hcond.2⟩]
        · have hcond2 : ¬(i ∈ j :: t ∧ f i ≠ 0) := fun hc => hcond ⟨hmem.mp hc.1, hc.2⟩
          rw [if_neg hcond, if_neg hcond2]

lemma mem_addedFungible_iff (b a : Vault) (i : AccountId) (x : Nat) :
    (i, x) ∈ (computeVaultDelta b a).addedFungible ↔
      x = a.bal i - b.bal i ∧ x ≠ 0 := by
  unfold computeVaultDelta
  simp only [List.mem_filterMap]
  constructor
  · rintro ⟨j, hj, hsome⟩
    by_cases h : a.bal j - b.bal j = 0
    · rw [if_pos h] at hsome
      exact absurd hsome (by simp)
    · rw [if_neg h] at hsome
      cases hsome
      exact ⟨rfl, h⟩
  · rintro ⟨hx, hne⟩
    subst hx
    refine ⟨i, ?_, by rw [if_neg hne]⟩
    exact mem_vaultIssuers_right b a i (by omega)

lemma mem_removedFungible_iff (b a : Vault) (i : AccountId) (x : Nat) :
    (i, x) ∈ (computeVaultDelta b a).removedFungible ↔
      x = b.bal i - a.bal i ∧ x ≠ 0 := by
  unfold computeVaultDelta
  simp only [List.mem_filterMap]
  constructor
  · rintro ⟨j, hj, hsome⟩
    by_cases h : b.bal j - a.bal j = 0
    · rw [if_pos h] at hsome
      exact absurd hsome (by simp)
    · rw [if_neg h] at hsome
      cases hsome
      exact ⟨rfl, h⟩
  · rintro ⟨hx, hne⟩
    subst hx
    refine ⟨i, ?_, by rw [if_neg hne]⟩
    exact mem_vaultIssuers_left b a i (by omega)

lemma deltaAmt_added (b a : Vault) (i : AccountId) :
    deltaAmt (computeVaultDelta b a).addedFungible i = a.bal i - b.bal i := by
  unfold deltaAmt computeVaultDelta vaultIssuers
  dsimp only
  rw [find?_key_filterMap _ (List.nodup_dedup _) _ i]
  split_ifs with h
  · rfl
  · rw [not_and_or] at h
    rcases h with h | h
    · have hb : b.bal i = 0 := by
        by_contra hb
        exact h (mem_vaultIssuers_left b a i hb)
      have ha : a.bal i = 0 := by
        by_contra ha
        exact h (mem_vaultIssuers_right b a i ha)
      simp [hb, ha]
    · simp at h
      simp [h]

lemma deltaAmt_removed (b a : Vault) (i : AccountId) :
    deltaAmt (computeVaultDelta b a).removedFungible i = b.bal i - a.bal i := by
  unfold deltaAmt computeVaultDelta vaultIssuers
  dsimp only
  rw [find?_key_filterMap _ (List.nodup_dedup _) _ i]
  split_ifs with h
  · rfl
  · rw [not_and_or] at h
    rcases h with h | h
    · have hb : b.bal i = 0 := by
        by_contra hb
        exact h (mem_vaultIssuers_left b a i hb)
      have ha : a.bal i = 0 := by
        by_contra ha
        exact h (mem_vaultIssuers_right b a i ha)
      simp [hb, ha]
    · simp at h
      simp [h]

lemma deltaAmt_ne_zero_mem (entries : List (AccountId × Nat)) (i : AccountId)
    (h : deltaAmt entries i ≠ 0) : i ∈ entries.map Prod.fst := by
  unfold deltaAmt at h
  cases hf : entries.find? fun q => decide (q.1 = i) with
  | none => rw [hf] at h; simp at h
  | some q =>
    have hmem := List.mem_of_find?_eq_some hf
    have hkey : q.1 = i := by simpa using List.find?_some hf
    exact hkey ▸ List.mem_map.mpr ⟨q, hmem, rfl⟩

lemma filter_eq_singleton_of_nodup (keys : List AccountId) (hk : keys.Nodup)
    (j : AccountId) :
    (keys.filter fun i => decide (i = j)) = if j ∈ keys then [j] else [] := by
  induction keys with
  | nil => simp
  | cons k t ih =>
    have hknot : k ∉ t := (List.nodup_cons.mp hk).1
    have ht : t.Nodup := (List.nodup_cons.mp hk).2
    by_cases hkj : k = j
    · subst hkj
      rw [List.filter_cons_of_pos (by simp), ih ht, if_neg hknot,
        if_pos (List.mem_cons_self k t)]
    · rw [List.filter_cons_of_neg (by simp [hkj]), ih ht]
      have hmem : (j ∈ k :: t) ↔ (j ∈ t) := by
        constructor
        · intro hm
          rcases List.mem_cons.mp hm with h | h
          · exact absurd h.symm hkj
          · exact h
        · exact fun hm => List.mem_cons_of_mem _ hm
      by_cases hcond : j ∈ t
      · rw [if_pos hcond, if_pos (hmem.mpr hcond)]
      · rw [if_neg hcond, if_neg (fun hc => hcond (hmem.mp hc))]

lemma bal_canonical (keys : List AccountId) (hk : keys.Nodup) (g : AccountId → Nat)
    (nf : List Word) (j : AccountId) :
    Vault.bal ⟨keys.map fun i => (i, g i), nf⟩ j = if j ∈ keys then g j else 0 := by
  unfold Vault.bal
  rw [List.filter_map]
  simp only [Function.comp_def]
  dsimp only
  rw [filter_eq_singleton_of_nodup keys hk j]
  split_ifs with h <;> simp

lemma apply_compute_bal (b a : Vault) (j : AccountId) :
    (applyVaultDelta b (computeVaultDelta b a)).bal j = a.bal j := by
  unfold applyVaultDelta
  rw [bal_canonical _ (List.nodup_dedup _)]
  rw [deltaAmt_removed, deltaAmt_added]
  split_ifs with h
  · omega
  · rw [List.mem_dedup, List.mem_append] at h
    push_neg at h
    have hb : b.bal j = 0 := bal_eq_zero_of_not_mem b j h.1
    by_cases ha : a.bal j = 0
    · simp [hb, ha]
    · exfalso
      have hd : deltaAmt (computeVaultDelta b a).addedFungible j ≠ 0 := by
        rw [deltaAmt_added]; omega
      exact h.2 (deltaAmt_ne_zero_mem _ _ hd)

lemma apply_compute_nf (b a : Vault) (d : Word) :
    (applyVaultDelta b (computeVaultDelta b a)).holdsNF d ↔ a.holdsNF d := by
  simp only [applyVaultDelta, computeVaultDelta, Vault.holdsNF, List.mem_append,
    List.mem_filter, decide_eq_true_eq]
  by_cases hbd : d ∈ b.nonFungible <;> by_cases had : d ∈ a.nonFungible <;>
    simp [hbd, had]

/-- C4: for every before and after vault snapshot, the computed vault delta
contains exactly the assets added (per issuer the positive part of the balance
increase, per non-fungible digest the digests gained) and exactly the assets
removed, the added and removed sets are asset-disjoint, and re-applying the
delta to the before-vault reproduces the after-vault exactly (as asset sets). -/
theorem vault_delta_conservation (before after : Vault) :
    (∀ i x, (i, x) ∈ (computeVaultDelta before after).addedFungible ↔
        (x = after.bal i - before.bal i ∧ x ≠ 0)) ∧
    (∀ i x, (i, x) ∈ (computeVaultDelta before after).removedFungible ↔
        (x = before.bal i - after.bal i ∧ x ≠ 0)) ∧
    (∀ w, w ∈ (computeVaultDelta before after).addedNonFungible ↔
        (after.holdsNF w ∧ ¬ before.holdsNF w)) ∧
    (∀ w, w ∈ (computeVaultDelta before after).removedNonFungible ↔
        (before.holdsNF w ∧ ¬ after.holdsNF w)) ∧
    (∀ i x y, (i, x) ∈ (computeVaultDelta before after).addedFungible →
        (i, y) ∈ (computeVaultDelta before after).removedFungible → False) ∧
    (∀ w, w ∈ (computeVaultDelta before after).addedNonFungible →
        w ∈ (computeVaultDelta before after).removedNonFungible → False) ∧
    Vault.sameAssets (applyVaultDelta before (computeVaultDelta before after)) after := by
  have hnf : ∀ w, w ∈ (computeVaultDelta before after).addedNonFungible ↔
      (after.holdsNF w ∧ ¬ before.holdsNF w) := by
    intro w
    simp [computeVaultDelta, Vault.holdsNF]
  have hnfr : ∀ w, w ∈ (computeVaultDelta before after).removedNonFungible ↔
      (before.holdsNF w ∧ ¬ after.holdsNF w) := by
    intro w
    simp [computeVaultDelta, Vault.holdsNF]
  refine ⟨fun i x => mem_addedFungible_iff before after i x,
         fun i x => mem_removedFungible_iff before after i x,
         hnf, hnfr, ?_, ?_, ?_, ?_⟩
  · intro i x y hx hy
    rw [mem_addedFungible_iff] at hx
    rw [mem_removedFungible_iff] at hy
    omega
  · intro w hw hw2
    rw [hnf] at hw
    rw [hnfr] at hw2
    tauto
  · exact fun i => apply_compute_bal before after i
  · exact fun d => apply_compute_nf before after d

-- Account storage and the storage delta
-- =====================================

/-- The sentinel empty word: the value of an absent storage-map key (spec
section 4.1) and of an out-of-range slot. -/
def EMPTY_WORD : Word := 0

/-- Modelled from the spec: account storage (crate miden-objects, absent from
the snapshot).  Spec section 3: an ordered sequence of fixed-width value slots,
plus zero or more key-to-value maps addressable by slot index. -/
structure AccountStorage where
  slots : List Word
  maps : List (Nat × List (Word × Word))
deriving DecidableEq, Repr

/-- Value of a storage slot, the sentinel empty word when out of range. -/
def slotVal (st : AccountStorage) (i : Nat) : Word :=
  st.slots.getD i EMPTY_WORD

/-- The entry list of the storage map at a slot index, empty when absent. -/
def mapAt (st : AccountStorage) (s : Nat) : List (Word × Word) :=
  ((st.maps.find? fun p => decide (p.1 = s)).map Prod.snd).getD []

/-- Value of a key in a storage-map entry list, the sentinel empty word when
the key is absent (spec section 4.1: keys removed back to the sentinel empty
value are reported with that sentinel value). -/
def mapLookup (m : List (Word × Word)) (k : Word) : Word :=
  ((m.find? fun p => decide (p.1 = k)).map Prod.snd).getD EMPTY_WORD

/-- Modelled from the spec: the storage part of the AccountDelta (Delta
Computer, absent from the snapshot).  Spec section 3: storage value changes map
a slot index to the new word only for slots whose value changed; storage map
changes map a slot index to the set of key and new-value entries actually
modified. -/
structure StorageDelta where
  values : List (Nat × Word)
  maps : List (Nat × List (Word × Word))
deriving DecidableEq, Repr

/-- Changed entries of one storage map between two snapshots: per key over the
union of both key sets, exactly the keys whose value differs, each paired with
its after-value (the sentinel empty word for a removed key). -/
def mapEntriesDelta (mb ma : List (Word × Word)) : List (Word × Word) :=
  ((mb.map Prod.fst ++ ma.map Prod.fst).dedup).filterMap (fun k =>
    if mapLookup mb k = mapLookup ma k then none
    else some (k, mapLookup ma k))

/-- Modelled from the spec: computation of the storage delta (Delta Computer,
absent from the snapshot).  Spec section 4.1: storage slot changes are detected
per slot by value inequality; map changes per key, emitting only keys whose
value differs. -/
def computeStorageDelta (before after : AccountStorage) : StorageDelta :=
  { values :=
      (List.range (max before.slots.length after.slots.length)).filterMap (fun i =>
        if slotVal before i = slotVal after i then none
        else some (i, slotVal after i))
    maps :=
      ((before.maps.map Prod.fst ++ after.maps.map Prod.fst).dedup).filterMap (fun s =>
        if mapEntriesDelta (mapAt before s) (mapAt after s) = [] then none
        else some (s, mapEntriesDelta (mapAt before s) (mapAt after s))) }

lemma slotVal_eq_empty_of_ge (st : AccountStorage) (i : Nat)
    (h : st.slots.length ≤ i) : slotVal st i = EMPTY_WORD := by
  unfold slotVal
  exact List.getD_eq_default _ _ h

lemma mem_storage_values_iff (b a : AccountStorage) (i : Nat) (v : Word) :
    (i, v) ∈ (computeStorageDelta b a).values ↔
      (slotVal b i ≠ slotVal a i ∧ v = slotVal a i) := by
  unfold computeStorageDelta
  simp only [List.mem_filterMap, List.mem_range]
  constructor
  · rintro ⟨j, hj, hsome⟩
    by_cases h : slotVal b j = slotVal a j
    · rw [if_pos h] at hsome
      exact absurd hsome (by simp)
    · rw [if_neg h] at hsome
      cases hsome
      exact ⟨h, rfl⟩
  · rintro ⟨hne, hv⟩
    subst hv
    refine ⟨i, ?_, by rw [if_neg hne]⟩
    by_contra hlt
    push_neg at hlt
    rw [Nat.max_le] at hlt
    rw [slotVal_eq_empty_of_ge b i hlt.1, slotVal_eq_empty_of_ge a i hlt.2] at hne
    exact hne rfl

-- Account state, nonce discipline, account delta
-- ==============================================

/-- Modelled from the spec: the state snapshot of an account (crate
miden-objects, absent from the snapshot).  Spec section 3: identifier, nonce,
storage, asset vault. -/
structure AccountState where
  id : AccountId
  nonce : Nat
  storage : AccountStorage
  vault : Vault
deriving DecidableEq, Repr

/-- Nonce delta of a transaction, spec section 4.1: after nonce minus before
nonce, as an integer. -/
def nonceDeltaOf (before after : AccountState) : Int :=
  (after.nonce : Int) - (before.nonce : Int)

/-- Whether a transaction mutated account state: its storage or its vault
differs between the before and after snapshots. -/
def stateMutated (before after : AccountState) : Prop :=
  before.storage ≠ after.storage ∨ before.vault ≠ after.vault

instance (before after : AccountState) : Decidable (stateMutated before after) := by
  unfold stateMutated; infer_instance

/-- Protocol-invariant violations detected by the Delta Computer or Lifecycle
(spec section 7). -/
inductive ProtocolError where
  | nonceDiscipline (nd : Int)
deriving DecidableEq, Repr

/-- Modelled from the spec: the nonce-discipline check of the Delta Computer
(absent from the snapshot).  Spec section 4.1: a non-state-changing transaction
must report zero nonce delta; a state-changing transaction that reports a nonce
delta other than exactly 1 is a protocol violation and must surface as an
error, not be silently accepted. -/
def checkNonceDiscipline (before after : AccountState) : Except ProtocolError Unit :=
  if stateMutated before after then
    if nonceDeltaOf before after = 1 then Except.ok ()
    else Except.error (ProtocolError.nonceDiscipline (nonceDeltaOf before after))
  else
    if nonceDeltaOf before after = 0 then Except.ok ()
    else Except.error (ProtocolError.nonceDiscipline (nonceDeltaOf before after))

/-- Modelled from the spec: the AccountDelta (spec section 3), derived from the
before and after snapshots: nonce delta, storage value and map changes, vault
added and removed asset sets. -/
structure AccountDelta where
  nonceDelta : Int
  storage : StorageDelta
  vault : VaultDelta
deriving DecidableEq, Repr

/-- Modelled from the spec: the Delta Computer entry point (spec section 4.1),
diffing two account snapshots into the minimal AccountDelta. -/
def computeAccountDelta (before after : AccountState) : AccountDelta :=
  { nonceDelta := nonceDeltaOf before after
    storage := computeStorageDelta before.storage after.storage
    vault := computeVaultDelta before.vault after.vault }

-- Concrete sample snapshots used by witnesses and scenario claims
-- ===============================================================

/-- Sample storage before a transaction: three value slots and one map under
slot index 2. -/
def sampleStorageBefore : AccountStorage :=
  { slots := [10, 20, 30], maps := [(2, [(100, 200)])] }

/-- Sample storage after a transaction that updated the plain value at slot
index 0 and one map entry (key 100) under slot index 2. -/
def sampleStorageAfter : AccountStorage :=
  { slots := [11, 20, 30], maps := [(2, [(100, 201)])] }

/-- Sample vault before a transaction. -/
def sampleVaultBefore : Vault := { fungible := [(1, 50), (4, 9)], nonFungible := [7] }

/-- Sample vault after a transaction: issuer 1 grew, issuer 4 was drained, the
non-fungible digest 7 left and digest 8 arrived. -/
def sampleVaultAfter : Vault := { fungible := [(1, 80)], nonFungible := [8] }

/-- Sample account before-snapshot. -/
def sampleBefore : AccountState :=
  { id := 1, nonce := 5, storage := sampleStorageBefore, vault := sampleVaultBefore }

/-- Sample account after-snapshot: state changed, nonce incremented by one. -/
def sampleAfter : AccountState :=
  { id := 1, nonce := 6, storage := sampleStorageAfter, vault := sampleVaultAfter }

-- Claim theorems for the Delta Computer (nonce and storage)
-- =========================================================

/-- C3: the computed account delta's nonce delta is after-nonce minus
before-nonce; the discipline check accepts exactly when the delta is 1 for a
state-changing transaction or 0 for a transaction with no state mutation, and
any other nonce delta is surfaced as a protocol error rather than silently
accepted. -/
theorem nonce_discipline (before after : AccountState) :
    ((computeAccountDelta before after).nonceDelta = nonceDeltaOf before after) ∧
    (checkNonceDiscipline before after = Except.ok () ↔
      ((stateMutated before after ∧ (computeAccountDelta before after).nonceDelta = 1) ∨
       (¬ stateMutated before after ∧ (computeAccountDelta before after).nonceDelta = 0))) ∧
    ((computeAccountDelta before after).nonceDelta ≠ 1 →
      (computeAccountDelta before after).nonceDelta ≠ 0 →
      checkNonceDiscipline before after =
        Except.error (ProtocolError.nonceDiscipline (nonceDeltaOf before after))) := by
  refine ⟨rfl, ?_, ?_⟩
  · unfold checkNonceDiscipline computeAccountDelta
    split_ifs with h1 h2 h3 <;> simp_all
  · intro h1 h0
    unfold checkNonceDiscipline
    unfold computeAccountDelta at h1 h0
    split_ifs with hm <;> simp_all

/-- Witness for C3 at the concrete sample snapshots: the state-changing sample
transaction with nonce delta one passes the discipline check. -/
theorem nonce_discipline_witness :
    checkNonceDiscipline sampleBefore sampleAfter = Except.ok () :=
  ((nonce_discipline sampleBefore sampleAfter).2.1).mpr
    (Or.inl ⟨by decide, by decide⟩)

/-- C5: the storage-value part of the computed delta contains exactly the
slots whose value differs between the snapshots; on the concrete scenario that
updates one plain value at slot index 0 and one map entry under slot index 2,
the delta has exactly one value entry (slot 0) and exactly one map delta with
exactly one entry (slot 2, the updated key mapped to the updated value). -/
theorem storage_delta_minimality :
    (∀ (before after : AccountStorage) (i : Nat) (v : Word),
        (i, v) ∈ (computeStorageDelta before after).values ↔
          (slotVal before i ≠ slotVal after i ∧ v = slotVal after i)) ∧
    (computeAccountDelta sampleBefore sampleAfter).storage.values = [(0, 11)] ∧
    (computeAccountDelta sampleBefore sampleAfter).storage.maps = [(2, [(100, 201)])] := by
  refine ⟨fun b a i v => mem_storage_values_iff b a i v, by decide, by decide⟩

/-- Witness for C5 at a concrete input: slot 0 changed from 10 to 11 between
the sample snapshots, so the entry (0, 11) is in the computed value delta. -/
theorem storage_delta_minimality_witness :
    (0, 11) ∈ (computeStorageDelta sampleStorageBefore sampleStorageAfter).values :=
  (storage_delta_minimality.1 sampleStorageBefore sampleStorageAfter 0 11).mpr
    ⟨by decide, by decide⟩

/-- Witness for C4 at a concrete input: re-applying the computed vault delta
to the sample before-vault reproduces the after-balance of issuer 4. -/
theorem vault_delta_conservation_witness :
    (applyVaultDelta sampleVaultBefore
        (computeVaultDelta sampleVaultBefore sampleVaultAfter)).bal 4 =
      sampleVaultAfter.bal 4 :=
  (vault_delta_conservation sampleVaultBefore sampleVaultAfter).2.2.2.2.2.2.1 4

-- Notes, asset commitments and note identifiers
-- =============================================

/-- A deterministic pairing of two naturals, standing in for the cryptographic
two-to-one hash used by commitments; the properties under study need only
determinism. -/
def hashPair (x y : Nat) : Nat := (x + y) * (x + y + 1) / 2 + y

/-- A deterministic digest of a list of naturals. -/
def hashList (l : List Nat) : Nat := l.foldr (fun x acc => hashPair x acc + 1) 0

/-- Canonical numeric encoding of an asset. -/
def encodeAsset : Asset → Nat
  | Asset.fungible i a => hashPair 0 (hashPair i a)
  | Asset.nonFungible d => hashPair 1 d

/-- Total fungible amount per issuer held by an asset list: quantities of the
same issuer combine (spec section 3: fungible assets are fungible by issuer). -/
def fungTotal (assets : List Asset) (i : AccountId) : Nat :=
  (assets.map (fun a =>
    match a with
    | Asset.fungible j amt => if j = i then amt else 0
    | Asset.nonFungible _ => 0)).sum

/-- The distinct issuers of the fungible assets in a list. -/
def fungIssuers (assets : List Asset) : List AccountId :=
  (assets.filterMap fun a =>
    match a with
    | Asset.fungible j _ => some j
    | Asset.nonFungible _ => none).dedup

/-- The non-fungible digests of an asset list, with multiplicity. -/
def nfDigests (assets : List Asset) : List Word :=
  assets.filterMap fun a =>
    match a with
    | Asset.fungible _ _ => none
    | Asset.nonFungible d => some d

/-- Canonical normal form of an asset list: fungible amounts aggregated per
issuer (zero totals dropped) in increasing issuer order, followed by the
non-fungible digests in increasing order.  Two asset lists that are equal as
multisets have the same normal form. -/
def normalizeAssets (assets : List Asset) : List Asset :=
  (((fungIssuers assets).insertionSort (· ≤ ·)).filterMap fun i =>
    if fungTotal assets i = 0 then none
    else some (Asset.fungible i (fungTotal assets i)))
  ++ ((nfDigests assets).insertionSort (· ≤ ·)).map Asset.nonFungible

/-- Modelled from the spec: the asset commitment of a note (crate
miden-objects, absent from the snapshot).  Spec section 3: the commitment is a
function of the asset multiset, not of asset ordering, so it is computed over
the canonical normal form; an empty asset list still yields a well-defined
commitment (spec section 4.2). -/
def assetsCommitment (assets : List Asset) : Word :=
  hashList ((normalizeAssets assets).map encodeAsset)

/-- The canonical commitment to an empty asset list. -/
def emptyAssetsCommitment : Word := hashList []

/-- Modelled from the spec: a note recipient (spec section 3): serial number,
script and inputs; its digest commits to all three. -/
structure NoteRecipient where
  serialNum : Word
  script : Word
  inputs : List Word
deriving DecidableEq, Repr

/-- The recipient digest: a commitment over serial number, script and inputs. -/
def NoteRecipient.digest (r : NoteRecipient) : Word :=
  hashPair r.serialNum (hashPair r.script (hashList r.inputs))

/-- Note visibility class (spec section 3). -/
inductive NoteKind where
  | pub
  | priv
deriving DecidableEq, Repr

/-- Modelled from the spec: note metadata (spec section 3): sender account id,
note type, tag, execution hint, auxiliary value. -/
structure NoteMetadata where
  sender : AccountId
  noteType : NoteKind
  tag : Nat
  executionHint : Nat
  aux : Word
deriving DecidableEq, Repr

/-- Modelled from the spec: a note (spec section 3): assets, metadata,
recipient. -/
structure Note where
  assets : List Asset
  metadata : NoteMetadata
  recipient : NoteRecipient
deriving DecidableEq, Repr

/-- Modelled from the spec: NoteId is a deterministic commitment over the
recipient digest and the assets commitment (spec section 3). -/
def noteIdOf (recipientDigest : Word) (assets : List Asset) : Word :=
  hashPair recipientDigest (assetsCommitment assets)

/-- The identifier of a full note. -/
def Note.id (n : Note) : Word := noteIdOf n.recipient.digest n.assets

/-- Modelled from the spec: an output note is polymorphic over visibility
(spec section 3): a Full variant carries the complete note, a Header variant
carries only id and metadata. -/
inductive OutputNote where
  | full (note : Note)
  | header (id : Word) (metadata : NoteMetadata)
deriving DecidableEq, Repr

/-- The identifier reported by an output note. -/
def OutputNote.id : OutputNote → Word
  | OutputNote.full n => n.id
  | OutputNote.header i _ => i

/-- The recipient of an output note, when revealed. -/
def OutputNote.recipientOpt : OutputNote → Option NoteRecipient
  | OutputNote.full n => some n.recipient
  | OutputNote.header _ _ => none

/-- Modelled from the spec: a note-creation effect emitted by the kernel during
execution (spec section 4.2): recipient digest, the possibly
execution-time-mutated asset list, and metadata. -/
structure NoteCreationEffect where
  recipientDigest : Word
  assets : List Asset
  metadata : NoteMetadata
deriving DecidableEq, Repr

/-- Modelled from the spec: the Output Note Builder for one effect (spec
section 4.2, crate miden-tx, absent from the snapshot).  A note whose full
recipient was supplied ahead of time as an expected output note surfaces as
Full with that recipient and the executed asset list; otherwise only id and
metadata surface, as a Header. -/
def buildOutputNote (expected : List Note) (e : NoteCreationEffect) : OutputNote :=
  match expected.find? fun n => decide (n.recipient.digest = e.recipientDigest) with
  | some n =>
      OutputNote.full { assets := e.assets, metadata := e.metadata, recipient := n.recipient }
  | none => OutputNote.header (noteIdOf e.recipientDigest e.assets) e.metadata

/-- Modelled from the spec: the Output Note Builder (spec section 4.2):
consumes the ordered sequence of note-creation effects and produces the final
output-note sequence, preserving creation order. -/
def buildOutputNotes (expected : List Note) (effects : List NoteCreationEffect) :
    List OutputNote :=
  effects.map (buildOutputNote expected)

-- Permutation invariance of the asset commitment
-- ==============================================

lemma fungTotal_perm (as1 as2 : List Asset) (h : as1.Perm as2) (i : AccountId) :
    fungTotal as1 i = fungTotal as2 i :=
  (List.Perm.map _ h).sum_eq

lemma sorted_eq_of_perm (l1 l2 : List Nat) (h : l1.Perm l2) :
    l1.insertionSort (· ≤ ·) = l2.insertionSort (· ≤ ·) := by
  refine List.eq_of_perm_of_sorted ?_ (List.sorted_insertionSort _ l1)
    (List.sorted_insertionSort _ l2)
  exact ((List.perm_insertionSort _ l1).trans h).trans
    (List.perm_insertionSort _ l2).symm

lemma normalizeAssets_perm (as1 as2 : List Asset) (h : as1.Perm as2) :
    normalizeAssets as1 = normalizeAssets as2 := by
  unfold normalizeAssets
  have htot : fungTotal as1 = fungTotal as2 :=
    funext (fungTotal_perm as1 as2 h)
  have hsi : (fungIssuers as1).insertionSort (· ≤ ·) =
      (fungIssuers as2).insertionSort (· ≤ ·) :=
    sorted_eq_of_perm _ _ (List.Perm.dedup (List.Perm.filterMap _ h))
  have hnf : ((nfDigests as1).insertionSort (· ≤ ·)) =
      ((nfDigests as2).insertionSort (· ≤ ·)) :=
    sorted_eq_of_perm _ _ (List.Perm.filterMap _ h)
  rw [htot, hsi, hnf]

lemma assetsCommitment_perm (as1 as2 : List Asset) (h : as1.Perm as2) :
    assetsCommitment as1 = assetsCommitment as2 := by
  unfold assetsCommitment
  rw [normalizeAssets_perm as1 as2 h]

lemma normalize_combine (i : AccountId) (x y : Nat) :
    normalizeAssets [Asset.fungible i x, Asset.fungible i y] =
      normalizeAssets [Asset.fungible i (x + y)] := by
  unfold normalizeAssets
  have hiss : fungIssuers [Asset.fungible i x, Asset.fungible i y] = [i] := by
    unfold fungIssuers
    simp only [List.filterMap_cons, List.filterMap_nil]
    rw [List.dedup_cons_of_mem (by simp)]
    simp
  have hiss2 : fungIssuers [Asset.fungible i (x + y)] = [i] := by
    unfold fungIssuers
    simp
  have htot : fungTotal [Asset.fungible i x, Asset.fungible i y] i = x + y := by
    unfold fungTotal
    simp
  have htot2 : fungTotal [Asset.fungible i (x + y)] i = x + y := by
    unfold fungTotal
    simp
  have hnf : nfDigests [Asset.fungible i x, Asset.fungible i y] = [] := by
    unfold nfDigests
    simp
  have hnf2 : nfDigests [Asset.fungible i (x + y)] = [] := by
    unfold nfDigests
    simp
  rw [hiss, hiss2, hnf, hnf2]
  have hsort : List.insertionSort (fun a b => a ≤ b) [i] = [i] := by
    simp [List.insertionSort, List.orderedInsert]
  simp only [hsort, List.filterMap_cons, List.filterMap_nil, htot, htot2]

-- Claim theorems for note identifiers and the Output Note Builder
-- ===============================================================

/-- C9: NoteId is a deterministic commitment over the recipient digest and the
assets commitment: two notes with the same recipient digest and the same asset
multiset have the same id regardless of asset ordering, and two fungible
assets of the same issuer moved into a note combine, so the id equals that of
a note built directly with the single combined asset. -/
theorem note_id_asset_multiset :
    (∀ (r : Word) (as1 as2 : List Asset), as1.Perm as2 →
        noteIdOf r as1 = noteIdOf r as2) ∧
    (∀ (r : Word) (i : AccountId) (x y : Nat),
        noteIdOf r [Asset.fungible i x, Asset.fungible i y] =
          noteIdOf r [Asset.fungible i (x + y)]) := by
  constructor
  · intro r as1 as2 h
    unfold noteIdOf
    rw [assetsCommitment_perm as1 as2 h]
  · intro r i x y
    unfold noteIdOf assetsCommitment
    rw [normalize_combine]

/-- Witness for C9 at a concrete input: reordering a two-asset list does not
change the note id. -/
theorem note_id_asset_multiset_witness :
    noteIdOf 5 [Asset.nonFungible 3, Asset.fungible 1 2] =
      noteIdOf 5 [Asset.fungible 1 2, Asset.nonFungible 3] :=
  note_id_asset_multiset.1 5 _ _
    (List.Perm.swap (Asset.fungible 1 2) (Asset.nonFungible 3) [])

-- Concrete output-note scenario: three created notes
-- ==================================================

/-- Metadata of the first created note (private). -/
def noteMeta1 : NoteMetadata :=
  { sender := 9, noteType := NoteKind.priv, tag := 11, executionHint := 1, aux := 27 }

/-- Metadata of the second created note (public). -/
def noteMeta2 : NoteMetadata :=
  { sender := 9, noteType := NoteKind.pub, tag := 12, executionHint := 0, aux := 28 }

/-- Metadata of the third created note (public, no assets). -/
def noteMeta3 : NoteMetadata :=
  { sender := 9, noteType := NoteKind.pub, tag := 12, executionHint := 2, aux := 29 }

/-- Recipient of the second created note, supplied ahead of time. -/
def recipient2 : NoteRecipient := { serialNum := 1, script := 42, inputs := [1] }

/-- Recipient of the third created note, supplied ahead of time. -/
def recipient3 : NoteRecipient := { serialNum := 5, script := 42, inputs := [1, 2] }

/-- The expected full output note 2: public, two assets. -/
def expectedNote2 : Note :=
  { assets := [Asset.nonFungible 70, Asset.fungible 2 50]
    metadata := noteMeta2, recipient := recipient2 }

/-- The expected full output note 3: public, zero assets. -/
def expectedNote3 : Note :=
  { assets := [], metadata := noteMeta3, recipient := recipient3 }

/-- The expected output notes supplied to the builder ahead of time. -/
def sampleExpected : List Note := [expectedNote2, expectedNote3]

/-- The ordered note-creation effects of the scenario transaction: a private
note receiving two fungible assets of the same issuer (combined into one), a
public note receiving two assets, and a public note receiving no assets. -/
def sampleEffects : List NoteCreationEffect :=
  [ { recipientDigest := 777
      assets := [Asset.fungible 1 50, Asset.fungible 1 50], metadata := noteMeta1 },
    { recipientDigest := recipient2.digest
      assets := [Asset.nonFungible 70, Asset.fungible 2 50], metadata := noteMeta2 },
    { recipientDigest := recipient3.digest
      assets := [], metadata := noteMeta3 } ]

/-- C8: the builder run on the three-note scenario reports exactly 3 output
notes in creation order; the private note surfaces as a header whose id is
computed over its executed asset list (the two same-issuer fungible assets
combining into one, so the id equals that over the single combined asset); the
zero-asset public note surfaces in full, with a well-defined id and an asset
commitment equal to the canonical empty-asset commitment. -/
theorem output_note_accounting :
    (buildOutputNotes sampleExpected sampleEffects).length = 3 ∧
    (buildOutputNotes sampleExpected sampleEffects).map OutputNote.id =
      [noteIdOf 777 [Asset.fungible 1 100], expectedNote2.id, expectedNote3.id] ∧
    (buildOutputNotes sampleExpected sampleEffects)[0]? =
      some (OutputNote.header
        (noteIdOf 777 [Asset.fungible 1 50, Asset.fungible 1 50]) noteMeta1) ∧
    (buildOutputNotes sampleExpected sampleEffects)[1]? =
      some (OutputNote.full
        { assets := [Asset.nonFungible 70, Asset.fungible 2 50]
          metadata := noteMeta2, recipient := recipient2 }) ∧
    (buildOutputNotes sampleExpected sampleEffects)[2]? =
      some (OutputNote.full expectedNote3) ∧
    expectedNote3.assets = [] ∧
    assetsCommitment expectedNote3.assets = emptyAssetsCommitment ∧
    expectedNote3.id = noteIdOf recipient3.digest [] := by
  decide

/-- C10: when the full recipient of a created note was supplied ahead of time
as an expected output note, the builder surfaces the note as Full carrying the
expected recipient unchanged, with only the assets coming from execution; in
particular the number of note input values in the produced note's recipient
equals that of the expected note's recipient. -/
theorem expected_recipient_preserved (expected : List Note) (e : NoteCreationEffect)
    (n : Note)
    (h : (expected.find? fun m => decide (m.recipient.digest = e.recipientDigest)) =
      some n) :
    buildOutputNote expected e =
      OutputNote.full { assets := e.assets, metadata := e.metadata
                        recipient := n.recipient } ∧
    (buildOutputNote expected e).recipientOpt = some n.recipient ∧
    ((buildOutputNote expected e).recipientOpt.map fun r => r.inputs.length) =
      some n.recipient.inputs.length := by
  unfold buildOutputNote
  rw [h]
  exact ⟨rfl, rfl, rfl⟩

/-- Witness for C10 at a concrete input: the second scenario effect matches
the expected output note 2, whose recipient is preserved by the builder. -/
theorem expected_recipient_preserved_witness :
    (buildOutputNote sampleExpected
        { recipientDigest := recipient2.digest
          assets := [Asset.nonFungible 70, Asset.fungible 2 50]
          metadata := noteMeta2 }).recipientOpt = some expectedNote2.recipient :=
  (expected_recipient_preserved sampleExpected
    { recipientDigest := recipient2.digest
      assets := [Asset.nonFungible 70, Asset.fungible 2 50]
      metadata := noteMeta2 } expectedNote2 (by decide)).2.1

-- Execution witness and replay
-- ============================

/-- Commitment to an account storage. -/
def storageCommitment (st : AccountStorage) : Word :=
  hashPair (hashList st.slots)
    (hashList (st.maps.map fun p => hashPair p.1 (hashList (p.2.map fun q => hashPair q.1 q.2))))

/-- Commitment to a vault. -/
def vaultCommitment (v : Vault) : Word :=
  hashPair (hashList (v.fungible.map fun p => hashPair p.1 p.2)) (hashList v.nonFungible)

/-- Commitment to the full state of an account. -/
def accountCommitment (a : AccountState) : Word :=
  hashPair a.id (hashPair a.nonce
    (hashPair (storageCommitment a.storage) (vaultCommitment a.vault)))

/-- Instructions of the execution model: a minimal deterministic machine whose
only non-determinism is the advice query (spec section 6: the VM collaborator
consumes advice inputs). -/
inductive Instr where
  | push (n : Nat)
  | add
  | setSlot (i : Nat)
  | incrNonce
  | createNote (digest : Word) (assets : List Asset) (meta : NoteMetadata)
  | adviceQuery (q : Word)
deriving DecidableEq, Repr

/-- State of the execution model: data stack, the account being mutated and
the note-creation effects recorded so far. -/
structure VMState where
  stack : List Nat
  account : AccountState
  effects : List NoteCreationEffect
deriving DecidableEq, Repr

/-- Setting a storage slot of an account. -/
def setSlotState (a : AccountState) (i : Nat) (v : Word) : AccountState :=
  { a with storage := { a.storage with slots := a.storage.slots.set i v } }

/-- Modelled from the spec: the first execution of a transaction (spec section
4.3, crate miden-tx, absent from the snapshot).  It runs against an advice
provider and records every advice value it consumed, in order, as the
self-contained witness returned next to the final state. -/
def exec (adv : Word → Option Nat) : List Instr → VMState → Option (VMState × List Nat)
  | [], s => some (s, [])
  | Instr.push n :: rest, s => exec adv rest { s with stack := n :: s.stack }
  | Instr.add :: rest, s =>
      match s.stack with
      | x :: y :: st => exec adv rest { s with stack := (x + y) :: st }
      | _ => none
  | Instr.setSlot i :: rest, s =>
      match s.stack with
      | v :: st =>
          exec adv rest { s with stack := st, account := setSlotState s.account i v }
      | _ => none
  | Instr.incrNonce :: rest, s =>
      exec adv rest { s with account := { s.account with nonce := s.account.nonce + 1 } }
  | Instr.createNote d as m :: rest, s =>
      exec adv rest { s with effects := s.effects ++ [⟨d, as, m⟩] }
  | Instr.adviceQuery q :: rest, s =>
      match adv q with
      | some v =>
          match exec adv rest { s with stack := v :: s.stack } with
          | some (s2, w) => some (s2, v :: w)
          | none => none
      | none => none

/-- Modelled from the spec: the second, fully independent execution (spec
section 4.3): it is given only the program, the initial state and the witness,
and reads every advice answer from the witness instead of an advice provider;
it has no access to any state beyond what the witness encodes. -/
def replayExec : List Instr → VMState → List Nat → Option VMState
  | [], s, _ => some s
  | Instr.push n :: rest, s, w => replayExec rest { s with stack := n :: s.stack } w
  | Instr.add :: rest, s, w =>
      match s.stack with
      | x :: y :: st => replayExec rest { s with stack := (x + y) :: st } w
      | _ => none
  | Instr.setSlot i :: rest, s, w =>
      match s.stack with
      | v :: st =>
          replayExec rest { s with stack := st, account := setSlotState s.account i v } w
      | _ => none
  | Instr.incrNonce :: rest, s, w =>
      replayExec rest { s with account := { s.account with nonce := s.account.nonce + 1 } } w
  | Instr.createNote d as m :: rest, s, w =>
      replayExec rest { s with effects := s.effects ++ [⟨d, as, m⟩] } w
  | Instr.adviceQuery _ :: rest, s, w =>
      match w with
      | v :: w2 => replayExec rest { s with stack := v :: s.stack } w2
      | [] => none

lemma replay_of_exec (adv : Word → Option Nat) :
    ∀ (prog : List Instr) (s s2 : VMState) (w : List Nat),
      exec adv prog s = some (s2, w) → replayExec prog s w = some s2 := by
  intro prog
  induction prog with
  | nil =>
    intro s s2 w h
    simp [exec] at h
    simp [replayExec, h.1, h.2]
  | cons ins rest ih =>
    intro s s2 w h
    cases ins with
    | push n =>
      simp only [exec] at h
      simpa [replayExec] using ih _ s2 w h
    | add =>
      simp only [exec] at h
      cases hst : s.stack with
      | nil => rw [hst] at h; exact absurd h (by simp)
      | cons x st1 =>
        cases st1 with
        | nil => rw [hst] at h; exact absurd h (by simp)
        | cons y st =>
          rw [hst] at h
          simp only at h
          simp only [replayExec, hst]
          exact ih _ s2 w h
    | setSlot i =>
      simp only [exec] at h
      cases hst : s.stack with
      | nil => rw [hst] at h; exact absurd h (by simp)
      | cons v st =>
        rw [hst] at h
        simp only at h
        simp only [replayExec, hst]
        exact ih _ s2 w h
    | incrNonce =>
      simp only [exec] at h
      simpa [replayExec] using ih _ s2 w h
    | createNote d as m =>
      simp only [exec] at h
      simpa [replayExec] using ih _ s2 w h
    | adviceQuery q =>
      simp only [exec] at h
      cases hadv : adv q with
      | none => rw [hadv] at h; exact absurd h (by simp)
      | some v =>
        rw [hadv] at h
        simp only at h
        cases hrec : exec adv rest { s with stack := v :: s.stack } with
        | none => rw [hrec] at h; exact absurd h (by simp)
        | some p =>
          rw [hrec] at h
          cases p with
          | mk ps pw =>
            simp only [Option.some.injEq, Prod.mk.injEq] at h
            obtain ⟨hs2, hw⟩ := h
            subst hs2
            subst hw
            simp only [replayExec]
            exact ih _ _ _ hrec

/-- C1: for every executed transaction (program run that completed and
returned a final state and the advice witness it consumed), a second, fully
independent execution given only the program, the initial state and the
witness — and no advice provider — reproduces exactly the original final
account commitment and the identical output-note set. -/
theorem replay_equivalence (prog : List Instr) (adv : Word → Option Nat)
    (s s2 : VMState) (w : List Nat) (expected : List Note)
    (h : exec adv prog s = some (s2, w)) :
    replayExec prog s w = some s2 ∧
    (replayExec prog s w).map (fun s3 => accountCommitment s3.account) =
      some (accountCommitment s2.account) ∧
    (replayExec prog s w).map (fun s3 => buildOutputNotes expected s3.effects) =
      some (buildOutputNotes expected s2.effects) := by
  have hr := replay_of_exec adv prog s s2 w h
  rw [hr]
  exact ⟨rfl, rfl, rfl⟩

/-- A sample program: non-deterministically read a value, store it in slot 0,
increment the nonce and create one note. -/
def sampleProg : List Instr :=
  [Instr.adviceQuery 7, Instr.setSlot 0, Instr.incrNonce,
   Instr.createNote 777 [Asset.fungible 1 100] noteMeta1]

/-- A sample advice provider answering only query 7. -/
def sampleAdv : Word → Option Nat := fun q => if q = 7 then some 4 else none

/-- The initial machine state of the sample execution. -/
def sampleVMInit : VMState :=
  { stack := [], account := sampleBefore, effects := [] }

/-- The final machine state of the sample execution. -/
def sampleVMFinal : VMState :=
  { stack := []
    account := { id := 1, nonce := 6
                 storage := { slots := [4, 20, 30], maps := [(2, [(100, 200)])] }
                 vault := sampleVaultBefore }
    effects := [⟨777, [Asset.fungible 1 100], noteMeta1⟩] }

/-- Witness for C1 at a concrete input: replaying the sample program from the
recorded advice witness [4] reproduces the original final state. -/
theorem replay_equivalence_witness :
    replayExec sampleProg sampleVMInit [4] = some sampleVMFinal :=
  (replay_equivalence sampleProg sampleAdv sampleVMInit sampleVMFinal [4] []
    (by decide)).1

-- Note consumption checker
-- ========================

/-- Execution errors raised by the VM collaborator (spec section 7). -/
inductive ExecError where
  | divideByZero
  | assertionFailed
  | missingAdvice
deriving DecidableEq, Repr

/-- Modelled from the spec: the result of consumption checking (spec section
3): Success, or Failure with the failed note id, the ordered sequence of
successful note ids, and the captured failure cause. -/
inductive NoteAccountExecution where
  | success
  | failure (failedNoteId : Word) (successfulNotes : List Word) (error : Option ExecError)
deriving DecidableEq, Repr

/-- The accumulator-carrying fold of the checker: attempt notes in order
against the evolving account state, extending the accumulator of successful
ids, short-circuiting at the first error (spec section 9: an explicit fold
carrying successful ids, short-circuiting on first error). -/
def checkNotesGo (consume : AccountState → Note → Except ExecError AccountState) :
    AccountState → List Note → List Word → NoteAccountExecution
  | _, [], _ => NoteAccountExecution.success
  | acct, n :: rest, done =>
      match consume acct n with
      | Except.ok acct2 => checkNotesGo consume acct2 rest (done ++ [n.id])
      | Except.error e => NoteAccountExecution.failure n.id done (some e)

/-- Modelled from the spec: the Note Consumption Checker (spec section 4.5,
crate miden-tx, absent from the snapshot).  It is parametric in the per-note
execution collaborator (the external VM, spec section 6), attempts the ordered
candidate notes in order, reports Success when all succeed and otherwise stops
at the first failing note. -/
def checkNotes (consume : AccountState → Note → Except ExecError AccountState)
    (acct : AccountState) (notes : List Note) : NoteAccountExecution :=
  checkNotesGo consume acct notes []

/-- The number of leading notes that consume without error. -/
def okPrefixLen (consume : AccountState → Note → Except ExecError AccountState) :
    AccountState → List Note → Nat
  | _, [] => 0
  | acct, n :: rest =>
      match consume acct n with
      | Except.ok acct2 => okPrefixLen consume acct2 rest + 1
      | Except.error _ => 0

/-- The id of the first note whose consumption raises an error, with the
error, when one exists. -/
def firstFailure (consume : AccountState → Note → Except ExecError AccountState) :
    AccountState → List Note → Option (Word × ExecError)
  | _, [] => none
  | acct, n :: rest =>
      match consume acct n with
      | Except.ok acct2 => firstFailure consume acct2 rest
      | Except.error e => some (n.id, e)

lemma checkNotesGo_spec (consume : AccountState → Note → Except ExecError AccountState) :
    ∀ (notes : List Note) (acct : AccountState) (done : List Word),
      checkNotesGo consume acct notes done =
        match firstFailure consume acct notes with
        | none => NoteAccountExecution.success
        | some (fid, e) =>
            NoteAccountExecution.failure fid
              (done ++ (notes.take (okPrefixLen consume acct notes)).map Note.id) (some e) := by
  intro notes
  induction notes with
  | nil => intro acct done; simp [checkNotesGo, firstFailure]
  | cons n rest ih =>
    intro acct done
    simp only [checkNotesGo, firstFailure, okPrefixLen]
    cases hc : consume acct n with
    | error e => simp
    | ok acct2 =>
      simp only
      rw [ih acct2 (done ++ [n.id])]
      cases hff : firstFailure consume acct2 rest with
      | none => simp
      | some p =>
        cases p with
        | mk fid e =>
          simp [List.take_succ_cons, List.append_assoc]

lemma checkNotesGo_append (consume : AccountState → Note → Except ExecError AccountState) :
    ∀ (notes : List Note) (acct : AccountState) (done : List Word)
      (extra : List Note),
      firstFailure consume acct notes ≠ none →
      checkNotesGo consume acct (notes ++ extra) done = checkNotesGo consume acct notes done := by
  intro notes
  induction notes with
  | nil =>
    intro acct done extra h
    exact absurd (rfl : (none : Option (Word × ExecError)) = none)
      (by simp [firstFailure] at h)
  | cons n rest ih =>
    intro acct done extra h
    simp only [List.cons_append, checkNotesGo]
    cases hc : consume acct n with
    | error e => simp
    | ok acct2 =>
      simp only
      refine ih acct2 (done ++ [n.id]) extra ?_
      simpa [firstFailure, hc] using h

/-- C2: for every ordered candidate note list, the checker returns Success
when consuming the whole set succeeds; otherwise it returns Failure carrying
the id of the first note whose consumption raised an error, the ordered prefix
of note ids that completed without error before it, and the underlying error;
notes after the failing note are never attempted — appending further
candidates after a failure leaves the result unchanged. -/
theorem note_consumption_checker
    (consume : AccountState → Note → Except ExecError AccountState)
    (acct : AccountState) (notes extra : List Note) :
    (firstFailure consume acct notes = none →
      checkNotes consume acct notes = NoteAccountExecution.success) ∧
    (∀ fid e, firstFailure consume acct notes = some (fid, e) →
      checkNotes consume acct notes =
        NoteAccountExecution.failure fid
          ((notes.take (okPrefixLen consume acct notes)).map Note.id) (some e)) ∧
    (firstFailure consume acct notes ≠ none →
      checkNotes consume acct (notes ++ extra) = checkNotes consume acct notes) := by
  refine ⟨?_, ?_, ?_⟩
  · intro h
    unfold checkNotes
    rw [checkNotesGo_spec consume notes acct [], h]
  · intro fid e h
    unfold checkNotes
    rw [checkNotesGo_spec consume notes acct [], h]
    simp
  · intro h
    unfold checkNotes
    exact checkNotesGo_append consume notes acct [] extra h

/-- A minimal candidate note with a given tag and serial number. -/
def mkSimpleNote (tag serial : Nat) : Note :=
  { assets := []
    metadata := { sender := 9, noteType := NoteKind.pub, tag := tag
                  executionHint := 0, aux := 0 }
    recipient := { serialNum := serial, script := 42, inputs := [] } }

/-- Candidate note A (valid). -/
def noteA : Note := mkSimpleNote 1 101

/-- Candidate note B (valid). -/
def noteB : Note := mkSimpleNote 1 102

/-- Candidate note C (its script divides by zero). -/
def noteC : Note := mkSimpleNote 666 103

/-- Candidate note D (its script divides by zero). -/
def noteD : Note := mkSimpleNote 666 104

/-- A sample per-note execution collaborator: notes tagged 666 fail with a
division by zero, every other note consumes successfully. -/
def sampleConsume (acct : AccountState) (n : Note) : Except ExecError AccountState :=
  if n.metadata.tag = 666 then Except.error ExecError.divideByZero else Except.ok acct

/-- Witness for C2 at the concrete four-note scenario: A and B succeed, C is
the first failure with a division by zero, D is never attempted. -/
theorem note_consumption_checker_witness :
    checkNotes sampleConsume sampleBefore [noteA, noteB, noteC, noteD] =
      NoteAccountExecution.failure noteC.id [noteA.id, noteB.id]
        (some ExecError.divideByZero) := by
  have h := (note_consumption_checker sampleConsume sampleBefore
    [noteA, noteB, noteC, noteD] []).2.1 noteC.id ExecError.divideByZero (by decide)
  rw [h]
  decide

-- Executed and proven transaction lifecycle
-- =========================================

/-- Modelled from the spec: the public effects of an executed transaction
(spec section 3): initial and final account commitments, input and output note
commitments, and the nonce. -/
structure TxEffects where
  initialCommitment : Word
  finalCommitment : Word
  inputNotesCommitment : Word
  outputNotesCommitment : Word
  nonce : Nat
deriving DecidableEq, Repr

/-- Modelled from the spec: the transaction id is a pure function of the
executed transaction's public effects, not of the proof encoding (spec
section 3). -/
def txIdOf (e : TxEffects) : Word :=
  hashList [e.initialCommitment, e.finalCommitment, e.inputNotesCommitment,
    e.outputNotesCommitment, e.nonce]

/-- Modelled from the spec: an ExecutedTransaction (spec section 3), reduced
to the parts the lifecycle claims depend on: the public effects, the output
notes, and the advice witness. -/
structure ExecutedTransaction where
  effects : TxEffects
  outputNotes : List OutputNote
  adviceWitness : List Nat
deriving DecidableEq, Repr

/-- The identifier of an executed transaction. -/
def ExecutedTransaction.id (t : ExecutedTransaction) : Word := txIdOf t.effects

/-- Modelled from the spec: a ProvenTransaction (spec section 3): the public
commitments it attests to, the serialized proof, and its attained security
level; the stable id is derived from the commitments alone. -/
structure ProvenTransaction where
  effects : TxEffects
  proofBytes : List Nat
  securityLevel : Nat
deriving DecidableEq, Repr

/-- The identifier of a proven transaction: a pure function of its public
effects, independent of the proof bytes. -/
def ProvenTransaction.id (p : ProvenTransaction) : Word := txIdOf p.effects

/-- Modelled from the spec: the prover (spec section 4.4, crate miden-tx,
absent from the snapshot): input an executed transaction, a target security
level and proof randomness; output a ProvenTransaction attesting to the same
public effects.  Only the proof bytes depend on the randomness. -/
def proveTx (t : ExecutedTransaction) (securityLevel : Nat) (randomness : Nat) :
    ProvenTransaction :=
  { effects := t.effects
    proofBytes := [hashPair (txIdOf t.effects) randomness, randomness]
    securityLevel := securityLevel }

/-- Modelled from the spec: the serialization collaborator for a
ProvenTransaction (spec section 6): a fixed-width header of the commitment
fields, the security level, and a length-prefixed proof. -/
def ProvenTransaction.toBytes (p : ProvenTransaction) : List Nat :=
  [p.effects.initialCommitment, p.effects.finalCommitment,
   p.effects.inputNotesCommitment, p.effects.outputNotesCommitment,
   p.effects.nonce, p.securityLevel, p.proofBytes.length] ++ p.proofBytes

/-- Modelled from the spec: deserialization of a ProvenTransaction; the
round-trip must be exact (spec section 6). -/
def provenFromBytes (bytes : List Nat) : Option ProvenTransaction :=
  match bytes with
  | ic :: fc :: inc :: onc :: nn :: sec :: len :: rest =>
      if rest.length = len then
        some { effects := { initialCommitment := ic, finalCommitment := fc
                            inputNotesCommitment := inc, outputNotesCommitment := onc
                            nonce := nn }
               proofBytes := rest, securityLevel := sec }
      else none
  | _ => none

/-- Modelled from the spec: transaction verification (spec section 4.4): a
pure function of the proven transaction and the required minimum security
level, accepting exactly the structurally consistent proofs at or above the
required level. -/
def verifyTx (minSecurity : Nat) (p : ProvenTransaction) : Bool :=
  decide (minSecurity ≤ p.securityLevel) &&
    (match p.proofBytes with
     | [a, r] => decide (a = hashPair (txIdOf p.effects) r)
     | _ => false)

/-- C6: proving an executed transaction produces a ProvenTransaction whose id
equals the executed transaction's id exactly; the id is a pure function of the
public effects and not of the proof encoding, so re-proving with different
randomness never changes the id. -/
theorem proven_id_stability (t : ExecutedTransaction) (sec r r2 : Nat) :
    (proveTx t sec r).id = t.id ∧
    (proveTx t sec r).id = (proveTx t sec r2).id ∧
    (∀ p q : ProvenTransaction, p.effects = q.effects → p.id = q.id) := by
  refine ⟨rfl, rfl, ?_⟩
  intro p q h
  unfold ProvenTransaction.id
  rw [h]

/-- A sample executed transaction. -/
def sampleExecutedTx : ExecutedTransaction :=
  { effects := { initialCommitment := 31, finalCommitment := 32
                 inputNotesCommitment := 33, outputNotesCommitment := 34, nonce := 6 }
    outputNotes := []
    adviceWitness := [4] }

/-- Witness for C6 at a concrete input: two provings of the sample executed
transaction with different randomness both report the executed id. -/
theorem proven_id_stability_witness :
    (proveTx sampleExecutedTx 96 1).id = sampleExecutedTx.id ∧
    (proveTx sampleExecutedTx 96 1).id = (proveTx sampleExecutedTx 96 2).id :=
  ⟨(proven_id_stability sampleExecutedTx 96 1 2).1,
   (proven_id_stability sampleExecutedTx 96 1 2).2.1⟩

/-- C7: serializing a ProvenTransaction to bytes and deserializing it back
yields the same transaction, so the round-trip preserves the id and leaves the
verification outcome under any required minimum security level unchanged. -/
theorem proven_roundtrip (p : ProvenTransaction) :
    provenFromBytes p.toBytes = some p ∧
    (∀ q, provenFromBytes p.toBytes = some q → q.id = p.id) ∧
    (∀ minSec q, provenFromBytes p.toBytes = some q →
      verifyTx minSec q = verifyTx minSec p) := by
  have h : provenFromBytes p.toBytes = some p := by
    cases p with
    | mk eff pb sec =>
      cases eff
      simp [ProvenTransaction.toBytes, provenFromBytes]
  refine ⟨h, ?_, ?_⟩
  · intro q hq
    rw [h] at hq
    cases hq
    rfl
  · intro minSec q hq
    rw [h] at hq
    cases hq
    rfl

/-- The sample proven transaction obtained by proving the sample executed
transaction. -/
def sampleProven : ProvenTransaction := proveTx sampleExecutedTx 96 1

/-- Witness for C7 at a concrete input: the byte round-trip of the sample
proven transaction restores it exactly. -/
theorem proven_roundtrip_witness :
    provenFromBytes sampleProven.toBytes = some sampleProven :=
  (proven_roundtrip sampleProven).1

end Miden
